import Mathlib

/-! Verification of the text-chunking and vector-store pipeline of a small
retrieval-augmented-generation service.  The Python sources are embedded
shallowly: strings become lists of characters, the chunking while-loop becomes
a fuel-indexed recursion whose value is `none` exactly when the loop has not
finished within the given number of iterations (so divergence of the Python
loop corresponds to the value being `none` for every fuel), and the external
collaborators (the embedding client and the chromadb collection) become
explicit functional parameters. -/

/-- Whitespace characters removed by Python's str.strip (ASCII subset). -/
def isSpaceChar (c : Char) : Bool :=
  c == ' ' || c == '\t' || c == '\n' || c == '\r' || c == '\x0b' || c == '\x0c'

/-- Model of Python str.strip: drop whitespace from both ends of the string. -/
def trim (l : List Char) : List Char :=
  ((l.dropWhile isSpaceChar).reverse.dropWhile isSpaceChar).reverse

/-- Model of the while-loop of chunk_text (src/app/chunker.py, lines 10-18).
The loop state is `start`; `fuel` bounds the number of iterations and `none`
means the loop did not finish within `fuel` iterations, so a result of `none`
for every fuel models divergence of the Python loop.  Natural-number
truncated subtraction models the clamp `if start < 0: start = 0`. -/
def chunkLoop (t : List Char) (cs ov : Nat) : Nat → Nat → Option (List (List Char))
  | 0, _ => none
  | fuel + 1, start =>
    if start < t.length then
      let e := min (start + cs) t.length
      let c := (t.drop start).take (e - start)
      let start' := e - ov
      if t.length ≤ start' then some [c]
      else
        match chunkLoop t cs ov fuel start' with
        | none => none
        | some rest => some (c :: rest)
    else some []

/-- Model of chunk_text (src/app/chunker.py): strip the text, return [] when
the stripped text is empty, otherwise run the chunking loop from start = 0.
The Python defaults are chunk_size = 1200 and overlap = 200. -/
def chunk_text (text : List Char) (cs ov fuel : Nat) : Option (List (List Char)) :=
  let t := trim text
  if t = [] then some [] else chunkLoop t cs ov fuel 0

/-- Decimal digit characters, as produced by Python's str on a small digit. -/
def digitChar (n : Nat) : Char :=
  match n with
  | 0 => '0'
  | 1 => '1'
  | 2 => '2'
  | 3 => '3'
  | 4 => '4'
  | 5 => '5'
  | 6 => '6'
  | 7 => '7'
  | 8 => '8'
  | 9 => '9'
  | _ => '*'

/-- Fuel-indexed decimal printer; the fuel only has to exceed the number of
divisions by ten, which n itself always does. -/
def decReprAux : Nat → Nat → List Char
  | 0, _ => []
  | fuel + 1, n =>
    if n < 10 then [digitChar n]
    else decReprAux fuel (n / 10) ++ [digitChar (n % 10)]

/-- Model of Python str(i) for the chunk ordinal: standard decimal notation
without leading zeros. -/
def decRepr (n : Nat) : List Char := decReprAux (n + 1) n

/-- Numeric value of a digit character. -/
def digitVal (c : Char) : Nat := c.toNat - 48

/-- Numeric value of a decimal digit string. -/
def decVal (l : List Char) : Nat := l.foldl (fun a c => 10 * a + digitVal c) 0

/-- The literal "_chunk_" appearing between the document id and the ordinal in
the chunk-id f-string (src/vector_store.py, line 51). -/
def sep : List Char := ['_', 'c', 'h', 'u', 'n', 'k', '_']

/-- Model of the chunk-id f-string of src/vector_store.py, line 51:
document_id + "_chunk_" + str(i) + "_" + uuid4().hex[:8].  The random
disambiguator (always 8 characters in the code) is an explicit argument. -/
def mkChunkId (d : List Char) (i : Nat) (s : List Char) : List Char :=
  d ++ sep ++ decRepr i ++ '_' :: s

/-- Metadata stored with every chunk record (src/vector_store.py, line 55). -/
structure Metadata where
  document_id : List Char
  chunk_index : Nat
deriving DecidableEq

/-- One chunk record of the Index Store: id, document text, embedding vector
and metadata, mirroring the four parallel lists ids / documents / embeddings /
metadatas of add_chunks, with positions kept in correspondence. -/
structure Record (Vec : Type) where
  id : List Char
  document : List Char
  embedding : Vec
  metadata : Metadata
deriving DecidableEq

/-- Model of the record-building loop of add_chunks (src/vector_store.py,
lines 46-55): iterate over the chunks with their enumerate index i, skip a
chunk that is empty or whitespace-only, otherwise embed it (a failure of the
embedding call aborts the whole loop, modelled by Except.error) and extend the
four parallel lists, modelled as one list of records.  `rand` supplies the
random 8-character suffix drawn for ordinal i. -/
def buildRecords {Err Vec : Type} (embed : List Char → Except Err Vec)
    (rand : Nat → List Char) (document_id : List Char) :
    Nat → List (List Char) → Except Err (List (Record Vec))
  | _, [] => Except.ok []
  | i, c :: cs =>
    if trim c = [] then buildRecords embed rand document_id (i + 1) cs
    else
      match embed c with
      | Except.error e => Except.error e
      | Except.ok v =>
        match buildRecords embed rand document_id (i + 1) cs with
        | Except.error e => Except.error e
        | Except.ok rest =>
          let r : Record Vec :=
            { id := mkChunkId document_id i (rand i), document := c,
              embedding := v,
              metadata := { document_id := document_id, chunk_index := i } }
          Except.ok (r :: rest)

/-- Model of add_chunks (src/vector_store.py, lines 41-62): build the records
(an embedding failure propagates, leaving the store untouched), return 0
without any write when no chunk survived the filter, otherwise perform the
single collection.add write and return the number of records written. -/
def add_chunks {Err Vec : Type} (embed : List Char → Except Err Vec)
    (rand : Nat → List Char) (store : List (Record Vec)) (document_id : List Char)
    (chunks : List (List Char)) : Except Err Nat × List (Record Vec) :=
  match buildRecords embed rand document_id 0 chunks with
  | Except.error e => (Except.error e, store)
  | Except.ok recs =>
    if recs.isEmpty then (Except.ok 0, store)
    else (Except.ok recs.length, store ++ recs)

/-- Exact-equality metadata filter of the Index Store: a record passes when no
filter is given, or when its stored document_id equals the filter value. -/
def matchesFilter {Vec : Type} (filt : Option (List Char)) (r : Record Vec) : Bool :=
  match filt with
  | none => true
  | some d => r.metadata.document_id == d

/-- Model of the Python truthiness test on line 68 of src/vector_store.py:
`{"document_id": document_id} if document_id else None`.  Both None and the
empty string are falsy, so both yield no filter. -/
def effective_filter (document_id : Option (List Char)) : Option (List Char) :=
  match document_id with
  | none => none
  | some d => if d = [] then none else some d

/-- Modelled from the spec: the Index Store query (the chromadb
collection.query call) is external to this repository; per the spec's external
interface section the store answers a similarity query with the matches
ordered by descending similarity, applies the optional filter as exact
equality on the metadata field document_id, and returns at most n_results
matches.  `score` abstracts the similarity of a stored vector to the already
embedded query; `documents` is returned as a list of lists, one inner list per
query embedding. -/
def collection_query {Vec : Type} (score : Vec → Int) (store : List (Record Vec))
    (n_results : Nat) (filt : Option (List Char)) : List (List (List Char)) :=
  let cands := store.filter (fun r => matchesFilter filt r)
  let ranked := cands.insertionSort (fun a b => score b.embedding ≤ score a.embedding)
  [(ranked.take n_results).map (fun r => r.document)]

/-- Model of query_chunks (src/vector_store.py, lines 65-78): embed the query,
turn the optional document_id into a where-filter by Python truthiness, issue
one store query, and return the first inner documents list (the code's
`docs[0] if docs else []`). -/
def query_chunks {Vec : Type} (embed : List Char → Vec) (score : Vec → Vec → Int)
    (store : List (Record Vec)) (query : List Char) (top_k : Nat)
    (document_id : Option (List Char)) : List (List Char) :=
  let q_emb := embed query
  let res := collection_query (score q_emb) store top_k (effective_filter document_id)
  match res with
  | [] => []
  | d0 :: _ => d0

/-- An element that does not satisfy the predicate survives dropWhile. -/
lemma mem_dropWhile_of_mem {p : Char → Bool} {c : Char} :
    ∀ {l : List Char}, c ∈ l → p c = false → c ∈ l.dropWhile p := by
  intro l
  induction l with
  | nil => intro h _; cases h
  | cons x xs ih =>
    intro hmem hpc
    rcases List.mem_cons.mp hmem with h | h
    · subst h
      simp [List.dropWhile, hpc]
    · by_cases hx : p x
      · simpa [List.dropWhile, hx] using ih h hpc
      · simp [List.dropWhile, hx, List.mem_cons, h]

/-- A non-whitespace character of the string survives trimming. -/
lemma mem_trim_of_mem {c : Char} {l : List Char}
    (h : c ∈ l) (hc : isSpaceChar c = false) : c ∈ trim l := by
  unfold trim
  have h1 : c ∈ l.dropWhile isSpaceChar := mem_dropWhile_of_mem h hc
  have h2 : c ∈ (l.dropWhile isSpaceChar).reverse := List.mem_reverse.mpr h1
  have h3 : c ∈ (l.dropWhile isSpaceChar).reverse.dropWhile isSpaceChar :=
    mem_dropWhile_of_mem h2 hc
  exact List.mem_reverse.mpr h3

/-- A string containing a non-whitespace character trims to a non-empty string. -/
lemma trim_ne_nil {c : Char} {l : List Char}
    (h : c ∈ l) (hc : isSpaceChar c = false) : trim l ≠ [] :=
  List.ne_nil_of_mem (mem_trim_of_mem h hc)

/-- With any positive overlap, the loop's next start, `min (start+cs) len - ov`,
is always strictly below the text length, so the break `if start >= len(text)`
never fires and the loop runs out of any amount of fuel. -/
lemma chunkLoop_eq_none {t : List Char} {cs ov : Nat} (hov : 0 < ov) :
    ∀ fuel start, start < t.length → chunkLoop t cs ov fuel start = none := by
  intro fuel
  induction fuel with
  | zero => intro start _; rfl
  | succ n ih =>
    intro start h
    have hmin : min (start + cs) t.length ≤ t.length := Nat.min_le_right _ _
    have hlt : min (start + cs) t.length - ov < t.length := by omega
    simp only [chunkLoop]
    rw [if_pos h, if_neg (by omega : ¬ t.length ≤ min (start + cs) t.length - ov)]
    rw [ih _ hlt]

/-- C1: the claim says chunk_text terminates for every non-empty trimmed text
and every configuration with 0 ≤ overlap < chunk_size.  In the code the break
condition compares the next start (= end - overlap) with the text length, and
since end never exceeds the text length that next start is at most
length - overlap, so for every positive overlap the loop never terminates on
any non-empty trimmed text: no amount of fuel produces a result. -/
theorem chunk_text_diverges_on_valid_config (text : List Char) (cs ov : Nat)
    (hcs : 0 < cs) (hov : 0 < ov) (hlt : ov < cs) (ht : trim text ≠ []) :
    ∀ fuel, chunk_text text cs ov fuel = none := by
  intro fuel
  unfold chunk_text
  rw [if_neg ht]
  exact chunkLoop_eq_none hov fuel 0 (List.length_pos.mpr ht)

/-- Witness for C1's theorem at the concrete failing input: text "A",
chunk_size 1200, overlap 200 (a valid configuration per the claim). -/
theorem chunk_text_diverges_on_valid_config_witness :
    (0 < 1200 ∧ 0 < 200 ∧ 200 < 1200 ∧ trim ['A'] ≠ []) ∧
      chunk_text ['A'] 1200 200 9 = none :=
  ⟨⟨by decide, by decide, by decide, by decide⟩,
    chunk_text_diverges_on_valid_config ['A'] 1200 200 (by decide) (by decide)
      (by decide) (by decide) 9⟩

/-- C2: the claim says chunk_text with overlap ≥ chunk_size (e.g. 100 and 100)
fails with an InvalidConfiguration condition before producing chunks.  The
code contains no configuration check at all and no error path: on text "A"
with chunk_size = 100 and overlap = 100 it simply loops forever, producing
neither an error nor a result for any amount of fuel. -/
theorem chunk_text_overlap_eq_size_no_error_no_result :
    ∀ fuel, chunk_text ['A'] 100 100 fuel = none := by
  intro fuel
  unfold chunk_text
  rw [if_neg (by decide : trim ['A'] ≠ [])]
  exact chunkLoop_eq_none (by decide) fuel 0 (by decide)

/-- C3: the claim says chunk_text on 2500 copies of 'A' with chunk_size 1200
and overlap 200 returns exactly 3 chunks of lengths 1200, 1200 and 300.  The
code instead diverges on this input: the loop emits windows at starts 0, 1000,
2000, then the state becomes start = 2300 with next start
min (2300+1200) 2500 - 200 = 2300 again, so the loop never exits and no amount
of fuel yields any finite chunk list. -/
theorem chunk_text_spec_example_diverges :
    ∀ fuel, chunk_text (List.replicate 2500 'A') 1200 200 fuel = none := by
  intro fuel
  have hmem : 'A' ∈ List.replicate 2500 'A' :=
    List.mem_replicate.mpr ⟨by decide, rfl⟩
  have ht : trim (List.replicate 2500 'A') ≠ [] := trim_ne_nil hmem (by decide)
  unfold chunk_text
  rw [if_neg ht]
  exact chunkLoop_eq_none (by decide) fuel 0 (List.length_pos.mpr ht)

/-- C4: for every input whose trimmed form is empty (the empty string and
whitespace-only strings included), chunk_text returns the empty list of
chunks, with no error, before entering the loop. -/
theorem chunk_text_empty_trim_eq_nil (text : List Char) (cs ov fuel : Nat)
    (h : trim text = []) : chunk_text text cs ov fuel = some [] := by
  unfold chunk_text
  rw [if_pos h]

/-- Witness for C4's theorem at the concrete input "   " (three spaces) with
the default configuration. -/
theorem chunk_text_empty_trim_eq_nil_witness :
    trim [' ', ' ', ' '] = [] ∧ chunk_text [' ', ' ', ' '] 1200 200 9 = some [] :=
  ⟨by decide, chunk_text_empty_trim_eq_nil [' ', ' ', ' '] 1200 200 9 (by decide)⟩

/-- The decimal printer does not depend on the fuel once the fuel exceeds the
number being printed. -/
lemma decReprAux_fuel :
    ∀ (f₁ f₂ n : Nat), n < f₁ → n < f₂ → decReprAux f₁ n = decReprAux f₂ n := by
  intro f₁
  induction f₁ with
  | zero => intro f₂ n h _; omega
  | succ g ih =>
    intro f₂ n h1 h2
    cases f₂ with
    | zero => omega
    | succ g2 =>
      simp only [decReprAux]
      by_cases hn : n < 10
      · rw [if_pos hn, if_pos hn]
      · rw [if_neg hn, if_neg hn]
        have hd : n / 10 < n := Nat.div_lt_self (by omega) (by omega)
        rw [ih g2 (n / 10) (by omega) (by omega)]

/-- Unfolding equation of the decimal printer. -/
lemma decRepr_eq (n : Nat) :
    decRepr n = if n < 10 then [digitChar n]
      else decRepr (n / 10) ++ [digitChar (n % 10)] := by
  unfold decRepr
  conv_lhs => rw [decReprAux]
  by_cases hn : n < 10
  · rw [if_pos hn, if_pos hn]
  · rw [if_neg hn, if_neg hn]
    have hd : n / 10 < n := Nat.div_lt_self (by omega) (by omega)
    rw [decReprAux_fuel n (n / 10 + 1) (n / 10) (by omega) (by omega)]

/-- Single digits print as digit characters. -/
lemma digitChar_isDigit {n : Nat} (h : n < 10) : (digitChar n).isDigit = true := by
  interval_cases n <;> decide

/-- Digit characters evaluate back to their digit. -/
lemma digitVal_digitChar {n : Nat} (h : n < 10) : digitVal (digitChar n) = n := by
  interval_cases n <;> decide

/-- Evaluating the printed decimal string recovers the number. -/
lemma decVal_decRepr : ∀ n, decVal (decRepr n) = n := by
  intro n
  induction n using Nat.strong_induction_on with
  | _ n ih =>
    rw [decRepr_eq]
    by_cases hn : n < 10
    · rw [if_pos hn]
      simp only [decVal, List.foldl]
      rw [digitVal_digitChar hn]
      omega
    · rw [if_neg hn]
      have hd : n / 10 < n := Nat.div_lt_self (by omega) (by omega)
      have hmod : n % 10 < 10 := Nat.mod_lt _ (by omega)
      have hih : decVal (decRepr (n / 10)) = n / 10 := ih _ hd
      simp only [decVal, List.foldl_append, List.foldl] at hih ⊢
      rw [hih, digitVal_digitChar hmod]
      omega

/-- Python's str is injective on the ordinals. -/
lemma decRepr_injective {m n : Nat} (h : decRepr m = decRepr n) : m = n := by
  have h2 := congrArg decVal h
  rwa [decVal_decRepr, decVal_decRepr] at h2

/-- Every character of a printed ordinal is a decimal digit. -/
lemma decRepr_isDigit : ∀ n, ∀ c ∈ decRepr n, c.isDigit = true := by
  intro n
  induction n using Nat.strong_induction_on with
  | _ n ih =>
    intro c hc
    rw [decRepr_eq] at hc
    by_cases hn : n < 10
    · rw [if_pos hn] at hc
      rw [List.mem_singleton.mp hc]
      exact digitChar_isDigit hn
    · rw [if_neg hn] at hc
      rcases List.mem_append.mp hc with h | h
      · exact ih (n / 10) (Nat.div_lt_self (by omega) (by omega)) c h
      · rw [List.mem_singleton.mp h]
        exact digitChar_isDigit (Nat.mod_lt _ (by omega))

/-- A printed ordinal is never the empty string. -/
lemma decRepr_ne_nil (n : Nat) : decRepr n ≠ [] := by
  rw [decRepr_eq]
  by_cases hn : n < 10
  · rw [if_pos hn]; simp
  · rw [if_neg hn]; simp

/-- An element delivered by optional indexing belongs to the list. -/
lemma mem_of_getElem?_eq_some {α : Type} {l : List α} {i : Nat} {a : α}
    (h : l[i]? = some a) : a ∈ l := by
  obtain ⟨hlt, heq⟩ := List.getElem?_eq_some_iff.mp h
  rw [← heq]
  exact List.getElem_mem hlt

/-- Alignment step of the id-collision argument.  If
d1 ++ "_chunk_" ++ N1 = d2 ++ "_chunk_" ++ N2 with N1 and N2 non-empty digit
strings, the two document ids have the same length: a longer d2 would force
the second "_chunk_" separator to start inside the first separator (but
"_chunk_" matches no non-trivial shift of itself followed by a digit) or
inside the digit block N1 (but '_' is not a digit). -/
lemma sep_digits_length_eq {d1 d2 N1 N2 : List Char}
    (hN1 : ∀ c ∈ N1, c.isDigit = true)
    (hn1 : N1 ≠ []) (hn2 : N2 ≠ [])
    (hle : d1.length ≤ d2.length)
    (h : d1 ++ (sep ++ N1) = d2 ++ (sep ++ N2)) : d1.length = d2.length := by
  by_contra hne
  have hlen : d1.length + (7 + N1.length) = d2.length + (7 + N2.length) := by
    have h2 := congrArg List.length h
    simp [sep] at h2
    omega
  have hn2pos : 0 < N2.length := List.length_pos.mpr hn2
  obtain ⟨k, hk⟩ : ∃ k, d2.length = d1.length + k := ⟨d2.length - d1.length, by omega⟩
  have hk1 : 1 ≤ k := by omega
  have eR : (d2 ++ (sep ++ N2))[d2.length]? = some '_' := by
    rw [List.getElem?_append_right (Nat.le_refl _), Nat.sub_self]
    simp [sep]
  have eL : (d1 ++ (sep ++ N1))[d2.length]? = (sep ++ N1)[k]? := by
    rw [List.getElem?_append_right (by omega : d1.length ≤ d2.length)]
    congr 1
    omega
  have hmain : (sep ++ N1)[k]? = some '_' := by rw [← eL, h, eR]
  by_cases hk7 : k < 7
  · have hsepk : sep[k]? = some '_' := by
      rwa [List.getElem?_append_left (by simp [sep]; omega : k < sep.length)] at hmain
    have hk6 : k = 6 := by
      interval_cases k <;> simp_all [sep]
    have eR2 : (d2 ++ (sep ++ N2))[d2.length + 1]? = some 'c' := by
      rw [List.getElem?_append_right (by omega : d2.length ≤ d2.length + 1)]
      have h9 : d2.length + 1 - d2.length = 1 := by omega
      rw [h9]
      simp [sep]
    have eL2 : (d1 ++ (sep ++ N1))[d2.length + 1]? = (sep ++ N1)[7]? := by
      rw [List.getElem?_append_right (by omega : d1.length ≤ d2.length + 1)]
      congr 1
      omega
    have h7 : (sep ++ N1)[7]? = N1[0]? := by
      rw [List.getElem?_append_right (by simp [sep] : sep.length ≤ 7)]
      simp [sep]
    have hchain : N1[0]? = some 'c' := by rw [← h7, ← eL2, h, eR2]
    have hdig := hN1 'c' (mem_of_getElem?_eq_some hchain)
    exact absurd hdig (by decide)
  · have hval : (sep ++ N1)[k]? = N1[k - 7]? := by
      rw [List.getElem?_append_right (by simp [sep]; omega : sep.length ≤ k)]
      simp [sep]
    have hus : N1[k - 7]? = some '_' := by rw [← hval]; exact hmain
    have hdig := hN1 '_' (mem_of_getElem?_eq_some hus)
    exact absurd hdig (by decide)

/-- The chunk-id scheme document_id + "_chunk_" + str(i) + "_" + suffix is
injective whenever both random suffixes have the fixed length 8 produced by
uuid4().hex[:8]: equal ids force equal document ids, equal ordinals and equal
suffixes. -/
lemma mkChunkId_inj {d1 d2 s1 s2 : List Char} {i1 i2 : Nat}
    (hs1 : s1.length = 8) (hs2 : s2.length = 8)
    (h : mkChunkId d1 i1 s1 = mkChunkId d2 i2 s2) :
    d1 = d2 ∧ i1 = i2 ∧ s1 = s2 := by
  unfold mkChunkId at h
  rw [show d1 ++ sep ++ decRepr i1 ++ '_' :: s1
      = (d1 ++ (sep ++ decRepr i1)) ++ '_' :: s1 by simp,
    show d2 ++ sep ++ decRepr i2 ++ '_' :: s2
      = (d2 ++ (sep ++ decRepr i2)) ++ '_' :: s2 by simp] at h
  have hmid := List.append_inj' h (by simp [hs1, hs2])
  obtain ⟨hfront, htail⟩ := hmid
  have hsuf : s1 = s2 := by
    injection htail
  have hlen : d1.length = d2.length := by
    rcases Nat.le_total d1.length d2.length with hle | hle
    · exact sep_digits_length_eq (decRepr_isDigit i1) (decRepr_ne_nil i1)
        (decRepr_ne_nil i2) hle hfront
    · exact (sep_digits_length_eq (decRepr_isDigit i2) (decRepr_ne_nil i2)
        (decRepr_ne_nil i1) hle hfront.symm).symm
  obtain ⟨hd, hrest⟩ := List.append_inj hfront hlen
  have hN : decRepr i1 = decRepr i2 := (List.append_right_inj sep).mp hrest
  exact ⟨hd, decRepr_injective hN, hsuf⟩

/-- Structure of the records produced by one run of the ingestion loop: every
record carries the loop's document id in its metadata, an ordinal at least the
starting index, non-blank text, and an id composed by mkChunkId from the
document id, that ordinal and the random suffix drawn for it; and the
ordinals strictly increase along the list. -/
lemma buildRecords_spec {Err Vec : Type} (embed : List Char → Except Err Vec)
    (rand : Nat → List Char) (d : List Char) :
    ∀ (chunks : List (List Char)) (i : Nat) (recs : List (Record Vec)),
      buildRecords embed rand d i chunks = Except.ok recs →
      (∀ r ∈ recs, i ≤ r.metadata.chunk_index ∧ r.metadata.document_id = d ∧
        trim r.document ≠ [] ∧
        r.id = mkChunkId d r.metadata.chunk_index (rand r.metadata.chunk_index)) ∧
      recs.Pairwise (fun r s => r.metadata.chunk_index < s.metadata.chunk_index) := by
  intro chunks
  induction chunks with
  | nil =>
    intro i recs h
    simp only [buildRecords] at h
    injection h with h'
    subst h'
    exact ⟨by simp, by simp⟩
  | cons c cs ih =>
    intro i recs h
    simp only [buildRecords] at h
    by_cases hc : trim c = []
    · rw [if_pos hc] at h
      obtain ⟨hmem, hpw⟩ := ih (i + 1) recs h
      refine ⟨fun r hr => ?_, hpw⟩
      obtain ⟨h1, h2⟩ := hmem r hr
      exact ⟨by omega, h2⟩
    · rw [if_neg hc] at h
      cases he : embed c with
      | error e => rw [he] at h; cases h
      | ok v =>
        rw [he] at h
        cases hb : buildRecords embed rand d (i + 1) cs with
        | error e => rw [hb] at h; cases h
        | ok rest =>
          rw [hb] at h
          injection h with h'
          subst h'
          obtain ⟨hmem, hpw⟩ := ih (i + 1) rest hb
          constructor
          · intro r hr
            rcases List.mem_cons.mp hr with hr0 | hrest
            · subst hr0
              exact ⟨Nat.le_refl i, rfl, hc, rfl⟩
            · obtain ⟨h1, h2⟩ := hmem r hrest
              exact ⟨by omega, h2⟩
          · rw [List.pairwise_cons]
            refine ⟨fun s hs => ?_, hpw⟩
            have := (hmem s hs).1
            simpa using by omega

/-- Within one ingestion the produced chunk ids are pairwise distinct when the
random suffixes have the fixed length 8: distinct ordinals give distinct ids. -/
lemma buildRecords_ids_nodup {Err Vec : Type} {embed : List Char → Except Err Vec}
    {rand : Nat → List Char} {d : List Char} (hr : ∀ j, (rand j).length = 8)
    {chunks : List (List Char)} {i : Nat} {recs : List (Record Vec)}
    (h : buildRecords embed rand d i chunks = Except.ok recs) :
    (recs.map (fun r => r.id)).Nodup := by
  obtain ⟨hmem, hpw⟩ := buildRecords_spec embed rand d chunks i recs h
  apply List.pairwise_map.mpr
  apply hpw.imp_of_mem
  intro a b ha hb hlt heq
  have hida := (hmem a ha).2.2.2
  have hidb := (hmem b hb).2.2.2
  rw [hida, hidb] at heq
  have := (mkChunkId_inj (hr _) (hr _) heq).2.1
  omega

/-- Records from ingestions of two different document ids never share a chunk
id (for any length-8 random suffixes, independently of the randomness). -/
lemma buildRecords_cross_disjoint {Err1 Err2 Vec : Type}
    {embed1 : List Char → Except Err1 Vec} {embed2 : List Char → Except Err2 Vec}
    {rand1 rand2 : Nat → List Char}
    (hr1 : ∀ j, (rand1 j).length = 8) (hr2 : ∀ j, (rand2 j).length = 8)
    {d1 d2 : List Char} (hd : d1 ≠ d2)
    {chunks1 chunks2 : List (List Char)} {i1 i2 : Nat}
    {recs1 recs2 : List (Record Vec)}
    (h1 : buildRecords embed1 rand1 d1 i1 chunks1 = Except.ok recs1)
    (h2 : buildRecords embed2 rand2 d2 i2 chunks2 = Except.ok recs2) :
    ∀ r1 ∈ recs1, ∀ r2 ∈ recs2, r1.id ≠ r2.id := by
  intro r1 hm1 r2 hm2 heq
  have ha := ((buildRecords_spec embed1 rand1 d1 chunks1 i1 recs1 h1).1 r1 hm1).2.2.2
  have hb := ((buildRecords_spec embed2 rand2 d2 chunks2 i2 recs2 h2).1 r2 hm2).2.2.2
  rw [ha, hb] at heq
  exact hd (mkChunkId_inj (hr1 _) (hr2 _) heq).1

/-- If some retained chunk's embedding call fails, the whole loop fails. -/
lemma buildRecords_error_of_embed_error {Err Vec : Type}
    {embed : List Char → Except Err Vec} {rand : Nat → List Char} {d : List Char} :
    ∀ {chunks : List (List Char)} (i : Nat),
      (∃ c ∈ chunks, trim c ≠ [] ∧ ∃ e, embed c = Except.error e) →
      ∃ e, buildRecords embed rand d i chunks
        = (Except.error e : Except Err (List (Record Vec))) := by
  intro chunks
  induction chunks with
  | nil =>
    intro i h
    obtain ⟨c, hc, _⟩ := h
    cases hc
  | cons c cs ih =>
    intro i h
    simp only [buildRecords]
    by_cases hc : trim c = []
    · rw [if_pos hc]
      apply ih (i + 1)
      obtain ⟨c', hc', hne, he⟩ := h
      rcases List.mem_cons.mp hc' with h0 | h0
      · subst h0; exact absurd hc hne
      · exact ⟨c', h0, hne, he⟩
    · rw [if_neg hc]
      cases he : embed c with
      | error e => exact ⟨e, rfl⟩
      | ok v =>
        obtain ⟨c', hc', hne, e', he'⟩ := h
        rcases List.mem_cons.mp hc' with h0 | h0
        · subst h0
          rw [he] at he'
          cases he'
        · obtain ⟨e, hb⟩ := ih (i + 1) ⟨c', h0, hne, ⟨e', he'⟩⟩
          rw [hb]
          exact ⟨e, rfl⟩

/-- If every chunk is blank the loop produces no records at all. -/
lemma buildRecords_all_blank {Err Vec : Type}
    {embed : List Char → Except Err Vec} {rand : Nat → List Char} {d : List Char} :
    ∀ {chunks : List (List Char)} (i : Nat), (∀ c ∈ chunks, trim c = []) →
      buildRecords embed rand d i chunks
        = (Except.ok [] : Except Err (List (Record Vec))) := by
  intro chunks
  induction chunks with
  | nil => intro i _; rfl
  | cons c cs ih =>
    intro i h
    simp only [buildRecords]
    rw [if_pos (h c (List.mem_cons_self c cs))]
    exact ih (i + 1) (fun c' hc' => h c' (List.mem_cons_of_mem c hc'))

/-- An add_chunks call that returns ok wrote exactly the records built by the
loop (possibly none) after the old store contents, and reported their number. -/
lemma add_chunks_ok {Err Vec : Type} {embed : List Char → Except Err Vec}
    {rand : Nat → List Char} {store : List (Record Vec)} {document_id : List Char}
    {chunks : List (List Char)} {n : Nat} {store' : List (Record Vec)}
    (h : add_chunks embed rand store document_id chunks = (Except.ok n, store')) :
    ∃ recs, buildRecords embed rand document_id 0 chunks = Except.ok recs ∧
      store' = store ++ recs ∧ n = recs.length := by
  unfold add_chunks at h
  cases hb : buildRecords embed rand document_id 0 chunks with
  | error e =>
    rw [hb] at h
    dsimp only at h
    rw [Prod.mk.injEq] at h
    exact absurd h.1 (by simp)
  | ok recs =>
    rw [hb] at h
    dsimp only at h
    by_cases hre : recs.isEmpty
    · rw [if_pos hre] at h
      rw [Prod.mk.injEq] at h
      have hnil : recs = [] := List.isEmpty_iff.mp hre
      refine ⟨recs, rfl, ?_, ?_⟩
      · rw [hnil, List.append_nil]; exact h.2.symm
      · rw [hnil]
        have := h.1
        injection this with h0
        simp only [List.length_nil]
        omega
    · rw [if_neg hre] at h
      rw [Prod.mk.injEq] at h
      refine ⟨recs, rfl, h.2.symm, ?_⟩
      have := h.1
      injection this with h0
      omega

/-- C5: every chunk id assigned by add_chunks is composed from the call's
document id, the chunk's ordinal (its enumerate index, stored as
chunk_index) and the random suffix drawn for that ordinal; and the ids
written by two ingestions with different document ids — in whatever order
their single writes reach the store — are pairwise distinct whenever the
random suffixes have uuid4().hex[:8]'s fixed length 8.  The ids depend only
on each call's own arguments, so interleaving cannot change them. -/
theorem add_chunks_ids_structured_and_globally_unique
    {Err1 Err2 Vec : Type}
    (embed1 : List Char → Except Err1 Vec) (embed2 : List Char → Except Err2 Vec)
    (rand1 rand2 : Nat → List Char) (store : List (Record Vec))
    (d1 d2 : List Char) (chunks1 chunks2 : List (List Char))
    (n1 n2 : Nat) (store1 store2 : List (Record Vec))
    (hr1 : ∀ j, (rand1 j).length = 8) (hr2 : ∀ j, (rand2 j).length = 8)
    (hd : d1 ≠ d2)
    (h1 : add_chunks embed1 rand1 store d1 chunks1 = (Except.ok n1, store1))
    (h2 : add_chunks embed2 rand2 store1 d2 chunks2 = (Except.ok n2, store2)) :
    (∀ r ∈ store2.drop store.length,
      (r.metadata.document_id = d1 ∧
        r.id = mkChunkId d1 r.metadata.chunk_index (rand1 r.metadata.chunk_index)) ∨
      (r.metadata.document_id = d2 ∧
        r.id = mkChunkId d2 r.metadata.chunk_index (rand2 r.metadata.chunk_index))) ∧
    ((store2.drop store.length).map (fun r => r.id)).Nodup := by
  obtain ⟨recs1, hb1, hs1, hn1⟩ := add_chunks_ok h1
  obtain ⟨recs2, hb2, hs2, hn2⟩ := add_chunks_ok h2
  have hsteq : store2 = store ++ (recs1 ++ recs2) := by
    rw [hs2, hs1, List.append_assoc]
  have hdrop : store2.drop store.length = recs1 ++ recs2 := by
    rw [hsteq]
    exact List.drop_left _ _
  constructor
  · intro r hr
    rw [hdrop] at hr
    rcases List.mem_append.mp hr with h | h
    · obtain ⟨_, hdoc, _, hid⟩ :=
        (buildRecords_spec embed1 rand1 d1 chunks1 0 recs1 hb1).1 r h
      exact Or.inl ⟨hdoc, hid⟩
    · obtain ⟨_, hdoc, _, hid⟩ :=
        (buildRecords_spec embed2 rand2 d2 chunks2 0 recs2 hb2).1 r h
      exact Or.inr ⟨hdoc, hid⟩
  · rw [hdrop, List.map_append]
    apply List.Nodup.append (buildRecords_ids_nodup hr1 hb1) (buildRecords_ids_nodup hr2 hb2)
    intro x hx1 hx2
    obtain ⟨r1, hm1, hxe1⟩ := List.mem_map.mp hx1
    obtain ⟨r2, hm2, hxe2⟩ := List.mem_map.mp hx2
    exact buildRecords_cross_disjoint hr1 hr2 hd hb1 hb2 r1 hm1 r2 hm2 (hxe1.trans hxe2.symm)

/-- C6: if the embedding call fails for some retained (non-blank) chunk, the
whole add_chunks call surfaces that failure and the store is left exactly as
it was: the single collection.add write is never reached, so no partial
subset of the document's chunks is silently indexed. -/
theorem add_chunks_embed_failure_leaves_store_unchanged {Err Vec : Type}
    (embed : List Char → Except Err Vec) (rand : Nat → List Char)
    (store : List (Record Vec)) (document_id : List Char) (chunks : List (List Char))
    (h : ∃ c ∈ chunks, trim c ≠ [] ∧ ∃ e, embed c = Except.error e) :
    ∃ e, add_chunks embed rand store document_id chunks = (Except.error e, store) := by
  obtain ⟨e, hb⟩ := buildRecords_error_of_embed_error 0 h
  refine ⟨e, ?_⟩
  unfold add_chunks
  rw [hb]

/-- Witness for C6's theorem: one non-blank chunk whose embedding fails; the
call reports the error and the (empty) store is unchanged. -/
theorem add_chunks_embed_failure_leaves_store_unchanged_witness :
    (∃ c ∈ [['x']], trim c ≠ [] ∧
      ∃ e, (fun c => if c = ['x'] then (Except.error () : Except Unit Int)
        else Except.ok 0) c = Except.error e) ∧
    ∃ e, add_chunks
      (fun c => if c = ['x'] then (Except.error () : Except Unit Int) else Except.ok 0)
      (fun _ => List.replicate 8 'a') [] ['d'] [['x']] = (Except.error e, []) := by
  have hh : ∃ c ∈ [['x']], trim c ≠ [] ∧
      ∃ e, (fun c => if c = ['x'] then (Except.error () : Except Unit Int)
        else Except.ok 0) c = Except.error e :=
    ⟨['x'], List.mem_singleton.mpr rfl, by decide, ⟨(), rfl⟩⟩
  exact ⟨hh, add_chunks_embed_failure_leaves_store_unchanged _ _ _ _ _ hh⟩

/-- C7: every record present in the store after an add_chunks call either was
there before or has non-empty trimmed text (blank chunks are dropped before
embedding and storage); and when every chunk is blank the call returns count
0 and performs no write at all, leaving the store equal to its old value. -/
theorem add_chunks_drops_blank_chunks {Err Vec : Type}
    (embed : List Char → Except Err Vec) (rand : Nat → List Char)
    (store : List (Record Vec)) (document_id : List Char)
    (chunks : List (List Char)) :
    (∀ r ∈ (add_chunks embed rand store document_id chunks).2,
      r ∈ store ∨ trim r.document ≠ []) ∧
    ((∀ c ∈ chunks, trim c = []) →
      add_chunks embed rand store document_id chunks = (Except.ok 0, store)) := by
  constructor
  · intro r hr
    unfold add_chunks at hr
    cases hb : buildRecords embed rand document_id 0 chunks with
    | error e =>
      rw [hb] at hr
      exact Or.inl hr
    | ok recs =>
      rw [hb] at hr
      dsimp only at hr
      by_cases hre : recs.isEmpty
      · rw [if_pos hre] at hr
        exact Or.inl hr
      · rw [if_neg hre] at hr
        rcases List.mem_append.mp hr with h | h
        · exact Or.inl h
        · exact Or.inr
            ((buildRecords_spec embed rand document_id chunks 0 recs hb).1 r h).2.2.1
  · intro hall
    unfold add_chunks
    rw [buildRecords_all_blank 0 hall]
    rfl

/-- Witness for C7's theorem: an empty chunk and a whitespace-only chunk give
count 0 and no store write. -/
theorem add_chunks_drops_blank_chunks_witness :
    add_chunks (fun _ => (Except.ok 0 : Except Unit Int))
      (fun _ => List.replicate 8 'a') [] ['d'] [[' '], []] = (Except.ok 0, []) :=
  (add_chunks_drops_blank_chunks _ _ _ _ _).2 (by decide)

/-- Witness for C5's theorem: two single-chunk ingestions for document ids "a"
and "b" with fixed 8-character suffixes; the two ids written to the store are
distinct. -/
theorem add_chunks_ids_structured_and_globally_unique_witness :
    ((['a'] : List Char) ≠ ['b']) ∧
    ((([{ id := mkChunkId ['a'] 0 (List.replicate 8 'a'), document := ['x'],
          embedding := (0 : Int),
          metadata := { document_id := ['a'], chunk_index := 0 } },
        { id := mkChunkId ['b'] 0 (List.replicate 8 'a'), document := ['y'],
          embedding := (0 : Int),
          metadata := { document_id := ['b'], chunk_index := 0 } }] :
        List (Record Int)).drop
          (List.length ([] : List (Record Int)))).map (fun r => r.id)).Nodup := by
  refine ⟨by decide, ?_⟩
  exact (add_chunks_ids_structured_and_globally_unique
    (fun _ => (Except.ok 0 : Except Unit Int)) (fun _ => (Except.ok 0 : Except Unit Int))
    (fun _ => List.replicate 8 'a') (fun _ => List.replicate 8 'a')
    [] ['a'] ['b'] [['x']] [['y']] 1 1
    [{ id := mkChunkId ['a'] 0 (List.replicate 8 'a'), document := ['x'],
       embedding := (0 : Int),
       metadata := { document_id := ['a'], chunk_index := 0 } }]
    [{ id := mkChunkId ['a'] 0 (List.replicate 8 'a'), document := ['x'],
       embedding := (0 : Int),
       metadata := { document_id := ['a'], chunk_index := 0 } },
     { id := mkChunkId ['b'] 0 (List.replicate 8 'a'), document := ['y'],
       embedding := (0 : Int),
       metadata := { document_id := ['b'], chunk_index := 0 } }]
    (fun _ => rfl) (fun _ => rfl) (by decide) rfl rfl).2

/-- C9: query_chunks is a thin order-preserving adapter: it returns exactly
the ordered documents list delivered by the store (the ranked matching
records, cut to top_k), and its length is min top_k (number of matching
records) — fewer than top_k matches give exactly that many results, with no
padding and no error. -/
theorem query_chunks_order_and_count {Vec : Type} (embed : List Char → Vec)
    (score : Vec → Vec → Int) (store : List (Record Vec)) (q : List Char)
    (top_k : Nat) (document_id : Option (List Char)) (hk : 0 < top_k) :
    query_chunks embed score store q top_k document_id =
      (((store.filter (fun r => matchesFilter (effective_filter document_id) r)).insertionSort
        (fun a b => score (embed q) b.embedding ≤ score (embed q) a.embedding)).take
        top_k).map (fun r => r.document) ∧
    (query_chunks embed score store q top_k document_id).length =
      min top_k
        (store.filter (fun r => matchesFilter (effective_filter document_id) r)).length := by
  constructor
  · rfl
  · show ((((store.filter (fun r => matchesFilter (effective_filter document_id) r)).insertionSort
      (fun a b => score (embed q) b.embedding ≤ score (embed q) a.embedding)).take
      top_k).map (fun r => r.document)).length = _
    rw [List.length_map, List.length_take]
    congr 1
    exact (List.perm_insertionSort _ _).length_eq

/-- Witness for C9's theorem: a store holding exactly 2 records matching
document id "a" (plus one for "b"), queried with top_k = 4 and filter "a",
returns exactly 2 results. -/
theorem query_chunks_order_and_count_witness :
    0 < 4 ∧
    (query_chunks (fun _ => (0 : Int)) (fun _ _ => 0)
      [{ id := ['1'], document := ['t', '1'], embedding := (0 : Int),
         metadata := { document_id := ['a'], chunk_index := 0 } },
       { id := ['2'], document := ['t', '2'], embedding := (0 : Int),
         metadata := { document_id := ['a'], chunk_index := 1 } },
       { id := ['3'], document := ['t', '3'], embedding := (0 : Int),
         metadata := { document_id := ['b'], chunk_index := 0 } }]
      ['q'] 4 (some ['a'])).length =
      min 4
        (([{ id := ['1'], document := ['t', '1'], embedding := (0 : Int),
             metadata := { document_id := ['a'], chunk_index := 0 } },
           { id := ['2'], document := ['t', '2'], embedding := (0 : Int),
             metadata := { document_id := ['a'], chunk_index := 1 } },
           { id := ['3'], document := ['t', '3'], embedding := (0 : Int),
             metadata := { document_id := ['b'], chunk_index := 0 } }] :
          List (Record Int)).filter
          (fun r => matchesFilter (effective_filter (some ['a'])) r)).length ∧
    (query_chunks (fun _ => (0 : Int)) (fun _ _ => 0)
      [{ id := ['1'], document := ['t', '1'], embedding := (0 : Int),
         metadata := { document_id := ['a'], chunk_index := 0 } },
       { id := ['2'], document := ['t', '2'], embedding := (0 : Int),
         metadata := { document_id := ['a'], chunk_index := 1 } },
       { id := ['3'], document := ['t', '3'], embedding := (0 : Int),
         metadata := { document_id := ['b'], chunk_index := 0 } }]
      ['q'] 4 (some ['a'])).length = 2 :=
  ⟨by decide,
    (query_chunks_order_and_count (fun _ => (0 : Int)) (fun _ _ => 0) _ ['q'] 4
      (some ['a']) (by decide)).2,
    by decide⟩

/-- C8 counterexample: the claim quantifies over every present (non-absent)
filter, but with the present filter "" (the empty string, which is falsy in
Python) the code searches unfiltered and returns a chunk whose stored
document_id "x" does not equal the filter value, so the claim as stated fails
at this input. -/
theorem query_chunks_empty_filter_counterexample :
    ¬ (∀ t ∈ query_chunks (fun _ => (0 : Int)) (fun _ _ => 0)
        [{ id := ['i'], document := ['t'], embedding := (0 : Int),
           metadata := { document_id := ['x'], chunk_index := 0 } }]
        ['q'] 4 (some []),
        ∃ r ∈ [({ id := ['i'], document := ['t'], embedding := (0 : Int), metadata := { document_id := ['x'], chunk_index := 0 } } : Record Int)],
          r.metadata.document_id = ([] : List Char) ∧ r.document = t) := by
  decide

/-- C8 amended: for every present and non-empty document_id filter, every
returned text is the text of a stored record whose metadata document_id
equals the filter exactly (no prefix or partial match); a present-but-empty
filter is treated as absent (see C10), and an absent filter applies no
restriction. -/
theorem query_chunks_nonempty_filter_exact_match {Vec : Type}
    (embed : List Char → Vec) (score : Vec → Vec → Int) (store : List (Record Vec))
    (q : List Char) (top_k : Nat) (d : List Char) (hd : d ≠ []) :
    ∀ t ∈ query_chunks embed score store q top_k (some d),
      ∃ r ∈ store, r.metadata.document_id = d ∧ r.document = t := by
  intro t ht
  have heq : query_chunks embed score store q top_k (some d) =
      (((store.filter (fun r => matchesFilter (effective_filter (some d)) r)).insertionSort
        (fun a b => score (embed q) b.embedding ≤ score (embed q) a.embedding)).take
        top_k).map (fun r => r.document) := rfl
  rw [heq] at ht
  obtain ⟨r, hrmem, hrt⟩ := List.mem_map.mp ht
  have hr2 := List.mem_of_mem_take hrmem
  have hr3 : r ∈ store.filter (fun r => matchesFilter (effective_filter (some d)) r) :=
    (List.perm_insertionSort _ _).mem_iff.mp hr2
  have hr4 := List.mem_filter.mp hr3
  refine ⟨r, hr4.1, ?_, hrt⟩
  have hf : effective_filter (some d) = some d := by
    simp only [effective_filter]
    rw [if_neg hd]
  have hm := hr4.2
  rw [hf] at hm
  unfold matchesFilter at hm
  simpa using hm

/-- Witness for the amended C8 theorem at a concrete store and the non-empty
filter "a". -/
theorem query_chunks_nonempty_filter_exact_match_witness :
    (['a'] : List Char) ≠ [] ∧
    ∀ t ∈ query_chunks (fun _ => (0 : Int)) (fun _ _ => 0)
        [{ id := ['i'], document := ['t'], embedding := (0 : Int),
           metadata := { document_id := ['a'], chunk_index := 0 } }]
        ['q'] 4 (some ['a']),
      ∃ r ∈ [({ id := ['i'], document := ['t'], embedding := (0 : Int), metadata := { document_id := ['a'], chunk_index := 0 } } : Record Int)],
        r.metadata.document_id = ['a'] ∧ r.document = t :=
  ⟨by decide, query_chunks_nonempty_filter_exact_match _ _ _ _ _ _ (by decide)⟩

/-- C10: a present but empty document_id filter is falsy in Python's
truthiness test on line 68 of src/vector_store.py, so query_chunks with
filter "" behaves exactly like query_chunks with no filter: the similarity
search runs unfiltered across all documents. -/
theorem query_chunks_empty_filter_eq_unfiltered {Vec : Type}
    (embed : List Char → Vec) (score : Vec → Vec → Int) (store : List (Record Vec))
    (q : List Char) (top_k : Nat) :
    query_chunks embed score store q top_k (some []) =
      query_chunks embed score store q top_k none := rfl
